import Mathlib

/-!
Verification of the Federal Register API client (`src/federal-register-api.ts`).

This file gives a shallow embedding of the client's pure logic:

* `buildQueryString` and its helpers (`addParam`, `addConditions`), over a
  model `JSVal` of the JavaScript values that can appear in a
  `conditions` record.  JavaScript's `String(v)` coercion is modelled by
  `jsString`, `encodeURIComponent` by `encodeURIComponent` (UTF-8
  percent-encoding, uppercase hex, with JavaScript's unreserved set).
  The source pushes each encoded `key=value` pair onto a `parts` array and
  returns `parts.join('&')`; here the parts array is `queryParts` and the
  join is `joinParts` at the character level.
* the executive-order convenience operations
  (`getExecutiveOrderByNumber`, `getExecutiveOrdersByPresident`,
  `getRecentExecutiveOrders`, `getExecutiveOrderFullText`) and the
  paginator `getAllResults`.  Network effects are abstracted: a search
  backend is a function from the built options to a result envelope, and
  fetches are functions from URLs to payloads.  Loops are modelled by
  fuel-indexed step functions that return `none` when the iteration
  budget is exhausted, so termination is a provable statement rather
  than an assumption.  Call counters instrument the number of backend
  invocations; the source functions do not return them, they are proof
  instrumentation only.
* the date computation of `getRecentExecutiveOrders`.  Time is modelled
  as a UTC instant in milliseconds since the Unix epoch (a fixed-offset
  zero timezone, in which JavaScript's `setDate(getDate() - n)` moves
  the instant by exactly `n` days); `toISOString()`'s date part is
  `formatCivil` of `daysToCivil` (the standard civil-from-days
  calculation) of the day index.
-/

/-- Model of the JavaScript values that can appear in a `conditions`
record: `undefined`, `null`, booleans, (integer) numbers, strings,
arrays, and plain objects (as association lists in insertion order,
matching `Object.entries`). -/
inductive JSVal : Type where
  | undef : JSVal
  | null : JSVal
  | bool : Bool → JSVal
  | num : Int → JSVal
  | str : String → JSVal
  | arr : List JSVal → JSVal
  | obj : List (String × JSVal) → JSVal

/-- `value === undefined || value === null`. -/
def isNullish : JSVal → Bool
  | JSVal.undef => true
  | JSVal.null => true
  | _ => false

mutual

/-- JavaScript's `String(v)` coercion on `JSVal`:
arrays join their elements with commas (with `null`/`undefined`
elements rendered as the empty string, per `Array.prototype.join`),
plain objects render as `[object Object]`. -/
def jsString : JSVal → String
  | JSVal.undef => ("undefined")
  | JSVal.null => ("null")
  | JSVal.bool b => if b then ("true") else ("false")
  | JSVal.num n => toString n
  | JSVal.str s => s
  | JSVal.arr xs => String.intercalate (",") (jsArrElems xs)
  | JSVal.obj _ => ("[object Object]")

/-- Element renderings used by `Array.prototype.join`. -/
def jsArrElems : List JSVal → List String
  | [] => []
  | JSVal.undef :: xs => ("") :: jsArrElems xs
  | JSVal.null :: xs => ("") :: jsArrElems xs
  | x :: xs => jsString x :: jsArrElems xs

end

/-- The characters `encodeURIComponent` leaves unescaped:
alphanumerics and `- _ . ! ~ * ' ( )`. -/
def isUnreservedChar (c : Char) : Bool :=
  c.isAlphanum || c.toNat == 45 || c.toNat == 95 || c.toNat == 46 ||
    c.toNat == 33 || c.toNat == 126 || c.toNat == 42 || c.toNat == 39 ||
    c.toNat == 40 || c.toNat == 41

/-- Uppercase hexadecimal digit characters. -/
def hexDigitChar (n : Nat) : Char :=
  (("0123456789ABCDEF").data).getD n (Char.ofNat 48)

/-- `%XX` escape of one byte (37 is the percent sign). -/
def percentEncodeByte (b : Nat) : List Char :=
  [Char.ofNat 37, hexDigitChar (b / 16), hexDigitChar (b % 16)]

/-- UTF-8 byte sequence of a Unicode code point. -/
def utf8Bytes (n : Nat) : List Nat :=
  if n < 128 then [n]
  else if n < 2048 then [192 + n / 64, 128 + n % 64]
  else if n < 65536 then [224 + n / 4096, 128 + n / 64 % 64, 128 + n % 64]
  else [240 + n / 262144, 128 + n / 4096 % 64, 128 + n / 64 % 64, 128 + n % 64]

/-- Encoding of a single character under `encodeURIComponent`. -/
def encodeURIComponentChar (c : Char) : List Char :=
  if isUnreservedChar c then [c] else (utf8Bytes c.toNat).flatMap percentEncodeByte

/-- JavaScript's `encodeURIComponent`. -/
def encodeURIComponent (s : String) : String :=
  String.mk (s.data.flatMap encodeURIComponentChar)

/-- The encoded pair pushed by `addParam`:
`encodeURIComponent(key)=encodeURIComponent(value)`. -/
def mkPair (key value : String) : String :=
  encodeURIComponent key ++ ("=") ++ encodeURIComponent value

/-- `addParam(key, value)`: pushes one encoded pair unless the value is
`undefined` or `null` (returned here as the list of pushed parts). -/
def addParam (key : String) (value : JSVal) : List String :=
  if isNullish value then [] else [mkPair key (jsString value)]

/-- One iteration of `addConditions`' loop over `Object.entries(conditions)`:
the parts pushed for a single `key: value` entry.  A non-null, non-array
object recurses one level into its entries; an array pushes one
`pre[key][]` pair per element; anything else is a scalar `pre[key]` pair. -/
def condEntryParts (pre : String) (key : String) (value : JSVal) : List String :=
  match value with
  | JSVal.obj entries =>
      entries.flatMap (fun e => addParam (pre ++ ("[") ++ key ++ ("][") ++ e.1 ++ ("]")) e.2)
  | JSVal.arr items =>
      items.flatMap (fun item => addParam (pre ++ ("[") ++ key ++ ("][]")) item)
  | v => addParam (pre ++ ("[") ++ key ++ ("]")) v

/-- `addConditions(conditions, 'conditions')`: the parts pushed for a
whole conditions record, in `Object.entries` order. -/
def condParts (cs : List (String × JSVal)) : List String :=
  cs.flatMap (fun e => condEntryParts ("conditions") e.1 e.2)

/-- JavaScript truthiness of an optional string (`undefined` and the
empty string are falsy). -/
def strTruthy : Option String → Bool
  | none => false
  | some s => if s = ("") then false else true

/-- JavaScript truthiness of an optional number (`undefined` and `0`
are falsy). -/
def intTruthy : Option Int → Bool
  | none => false
  | some n => if n = 0 then false else true

/-- JavaScript `x || d` for an optional number `x`. -/
def jsOrInt (x : Option Int) (d : Int) : Int :=
  match x with
  | some n => if n = 0 then d else n
  | none => d

/-- The `params` argument of `buildQueryString` (interface
`QueryParams`): optional conditions record, field list, paging and
format scalars. -/
structure QueryParams : Type where
  conditions : Option (List (String × JSVal))
  fields : Option (List String)
  per_page : Option Int
  page : Option Int
  order : Option String
  format : Option String

/-- Parts pushed for `params.fields` (guarded by
`params.fields && params.fields.length > 0`). -/
def fieldsParts (p : QueryParams) : List String :=
  match p.fields with
  | some fs => if 0 < fs.length then fs.flatMap (fun f => addParam ("fields[]") (JSVal.str f)) else []
  | none => []

/-- Part pushed for `params.per_page` (guarded by truthiness). -/
def perPageParts (p : QueryParams) : List String :=
  if intTruthy p.per_page then addParam ("per_page") (JSVal.num (p.per_page.getD 0)) else []

/-- Part pushed for `params.page` (guarded by truthiness). -/
def pagePartsQ (p : QueryParams) : List String :=
  if intTruthy p.page then addParam ("page") (JSVal.num (p.page.getD 0)) else []

/-- Part pushed for `params.order` (guarded by truthiness). -/
def orderParts (p : QueryParams) : List String :=
  if strTruthy p.order then addParam ("order") (JSVal.str (p.order.getD (""))) else []

/-- Part pushed for `params.format` (guarded by truthiness). -/
def formatParts (p : QueryParams) : List String :=
  if strTruthy p.format then addParam ("format") (JSVal.str (p.format.getD (""))) else []

/-- All non-conditions parts, in the source's push order. -/
def restParts (p : QueryParams) : List String :=
  fieldsParts p ++ perPageParts p ++ pagePartsQ p ++ orderParts p ++ formatParts p

/-- The full `parts` array built by `buildQueryString`, in push order. -/
def queryParts (p : QueryParams) : List String :=
  (match p.conditions with
   | some cs => condParts cs
   | none => []) ++ restParts p

/-- `parts.join('&')` at the character level (38 is the ampersand). -/
def joinParts : List (List Char) → List Char
  | [] => []
  | [q] => q
  | q :: qs => q ++ Char.ofNat 38 :: joinParts qs

/-- `buildQueryString(params)`: the joined parts array. -/
def buildQueryString (p : QueryParams) : String :=
  String.mk (joinParts ((queryParts p).map String.data))

/-- Splitting a character list at ampersands, like
`String.prototype.split('&')` (the empty list yields one empty
segment). -/
def splitAmp : List Char → List (List Char)
  | [] => [[]]
  | c :: cs =>
    if c = Char.ofNat 38 then [] :: splitAmp cs
    else
      match splitAmp cs with
      | [] => [[c]]
      | seg :: rest => (c :: seg) :: rest

/-- Interface `PresidentInfo`. -/
structure PresidentInfo : Type where
  name : String
  identifier : String
deriving DecidableEq

/-- Interface `ExecutiveOrder` (with its `FederalRegisterDocument`
fields; optional fields are `Option`). -/
structure ExecutiveOrder : Type where
  document_number : String
  executive_order_number : Int
  title : String
  abstract : Option String
  signing_date : String
  publication_date : String
  president : PresidentInfo
  html_url : String
  pdf_url : Option String
  raw_text_url : Option String
deriving DecidableEq

/-- Interface `ExecutiveOrderFullText`. -/
structure ExecutiveOrderFullText : Type where
  executive_order_number : Int
  document_number : Option String
  title : String
  signing_date : String
  president : PresidentInfo
  abstract : Option String
  full_text : Option String
  error : Option String
  html_url : String
  pdf_url : Option String
deriving DecidableEq

/-- Interface `SearchResult<T>`: the envelope returned by a search.
The `results` field is optional because the code guards against its
absence (`allResults.results?`, `!response.results`). -/
structure SearchResult (T : Type) : Type where
  count : Int
  total_pages : Int
  results : Option (List T)

/-- `response.results`, with an absent field read as the empty list
(the code treats both identically). -/
def resultsOf {T : Type} (r : SearchResult T) : List T :=
  match r.results with
  | some rs => rs
  | none => []

/-- Interface `SearchDocumentsOptions`: what `searchDocuments` (and
hence the underlying request) receives. -/
structure SearchDocumentsOptions : Type where
  conditions : Option (List (String × JSVal))
  fields : Option (List String)
  per_page : Option Int
  page : Option Int
  order : Option String

/-- A search backend: the abstraction of `searchDocuments` (a network
call).  Given the options the client built, it returns some envelope. -/
def SearchBackend (T : Type) : Type := SearchDocumentsOptions → SearchResult T

/-- Interface `SearchExecutiveOrdersOptions`. -/
structure SearchExecutiveOrdersOptions : Type where
  president : Option String
  year : Option Int
  term : Option String
  signingDateGte : Option String
  signingDateLte : Option String
  fields : Option (List String)
  per_page : Option Int
  page : Option Int

/-- Default field list of `searchExecutiveOrders`. -/
def searchEODefaultFields : List String :=
  [("document_number"), ("executive_order_number"), ("title"), ("signing_date"),
   ("publication_date"), ("president"), ("html_url"), ("pdf_url"), ("json_url")]

/-- The options `searchExecutiveOrders` passes to `searchDocuments`:
fixed type/subtype/correction conditions, then the optional filters in
insertion order, the default field list unless overridden, `per_page`
defaulting to 100, `page` defaulting to 1, and a fixed order key. -/
def searchExecutiveOrdersOptions (o : SearchExecutiveOrdersOptions) : SearchDocumentsOptions :=
  let base := [(("type"), JSVal.str ("PRESDOCU")),
               (("presidential_document_type"), JSVal.str ("executive_order")),
               (("correction"), JSVal.num 0)]
  let c1 := base ++ (if strTruthy o.president then
      [(("president"), JSVal.str (o.president.getD ("")))] else [])
  let c2 := c1 ++ (if intTruthy o.year then
      [(("publication_date"), JSVal.obj [(("year"), JSVal.num (o.year.getD 0))])] else [])
  let c3 := c2 ++ (if strTruthy o.term then
      [(("term"), JSVal.str (o.term.getD ("")))] else [])
  let c4 := c3 ++ (if strTruthy o.signingDateGte || strTruthy o.signingDateLte then
      [(("signing_date"), JSVal.obj
        ((if strTruthy o.signingDateGte then
            [(("gte"), JSVal.str (o.signingDateGte.getD ("")))] else []) ++
         (if strTruthy o.signingDateLte then
            [(("lte"), JSVal.str (o.signingDateLte.getD ("")))] else [])))] else [])
  { conditions := some c4,
    fields := some (match o.fields with
      | some fs => fs
      | none => searchEODefaultFields),
    per_page := some (jsOrInt o.per_page 100),
    page := some (jsOrInt o.page 1),
    order := some ("executive_order_number") }

/-- Default field list of `getExecutiveOrderByNumber`. -/
def eoByNumberDefaultFields : List String :=
  [("document_number"), ("executive_order_number"), ("executive_order_notes"),
   ("title"), ("abstract"), ("signing_date"), ("publication_date"), ("president"),
   ("html_url"), ("pdf_url"), ("full_text_xml_url"), ("body_html_url"),
   ("citation"), ("start_page"), ("end_page")]

/-- The options `getExecutiveOrderByNumber` passes to `searchDocuments`:
the fixed executive-order conditions plus the EO number as the free-text
`term`, and `per_page: 100`. -/
def eoByNumberOptions (eoNumber : Int) (fields : Option (List String)) : SearchDocumentsOptions :=
  { conditions := some
      [(("type"), JSVal.str ("PRESDOCU")),
       (("presidential_document_type"), JSVal.str ("executive_order")),
       (("correction"), JSVal.num 0),
       (("term"), JSVal.str (jsString (JSVal.num eoNumber)))],
    fields := some (match fields with
      | some fs => fs
      | none => eoByNumberDefaultFields),
    per_page := some 100,
    page := none,
    order := none }

/-- `getExecutiveOrderByNumber(eoNumber, fields)`: one free-text search,
then a client-side `find` for the exact numeric match; `null` (here
`none`) when `results` is absent or no record matches. -/
def getExecutiveOrderByNumber (search : SearchBackend ExecutiveOrder)
    (eoNumber : Int) (fields : Option (List String)) : Option ExecutiveOrder :=
  match (search (eoByNumberOptions eoNumber fields)).results with
  | none => none
  | some rs => rs.find? (fun r => r.executive_order_number == eoNumber)

/-- The options `getExecutiveOrdersByPresident` builds for page `page`
(1000 results per page). -/
def eoByPresOptions (president : String) (fields : Option (List String))
    (page : Nat) : SearchDocumentsOptions :=
  searchExecutiveOrdersOptions
    { president := some president, year := none, term := none,
      signingDateGte := none, signingDateLte := none,
      fields := fields, per_page := some 1000, page := some (page : Int) }

/-- The `while (hasMore)` loop of `getExecutiveOrdersByPresident`,
indexed by remaining fuel (iteration budget); returns the accumulated
results paired with the number of backend calls, or `none` when the
budget runs out.  The loop continues only while
`page < response.total_pages && page < 2`. -/
def eoByPresLoopF (search : SearchBackend ExecutiveOrder) (president : String)
    (fields : Option (List String)) :
    Nat → Nat → List ExecutiveOrder → Nat → Option (List ExecutiveOrder × Nat)
  | 0, _, _, _ => none
  | fuel + 1, page, acc, calls =>
    let response := search (eoByPresOptions president fields page)
    let rs := resultsOf response
    if rs.isEmpty then some (acc, calls + 1)
    else if (page : Int) < response.total_pages ∧ page < 2 then
      eoByPresLoopF search president fields fuel (page + 1) (acc ++ rs) (calls + 1)
    else some (acc ++ rs, calls + 1)

/-- `getExecutiveOrdersByPresident(president, fields)` with its call
count.  Fuel 2 always suffices because the loop guard requires
`page < 2` before another iteration (the theorems below show the budget
is never exhausted). -/
def getExecutiveOrdersByPresident (search : SearchBackend ExecutiveOrder)
    (president : String) (fields : Option (List String)) : List ExecutiveOrder × Nat :=
  (eoByPresLoopF search president fields 2 1 [] 0).getD ([], 0)

/-- Milliseconds per day. -/
def msPerDay : Nat := 86400000

/-- Civil date (year, month, day) of a day index counted from
1970-01-01, by the standard era-based Gregorian calculation. -/
def daysToCivil (z0 : Nat) : Nat × Nat × Nat :=
  let z := z0 + 719468
  let era := z / 146097
  let doe := z % 146097
  let yoe := (doe - doe / 1460 + doe / 36524 - doe / 146096) / 365
  let y := yoe + era * 400
  let doy := doe - (365 * yoe + yoe / 4 - yoe / 100)
  let mp := (5 * doy + 2) / 153
  let d := doy - (153 * mp + 2) / 5 + 1
  let m := if mp < 10 then mp + 3 else mp - 9
  (if m ≤ 2 then y + 1 else y, m, d)

/-- Decimal rendering of `n` left-padded with zeros to width `w`. -/
def padNum (w n : Nat) : String :=
  String.mk (List.replicate (w - (toString n).length) (Char.ofNat 48)) ++ toString n

/-- `YYYY-MM-DD` rendering of a civil date, as produced by
`toISOString().split('T')[0]` (45 is the hyphen). -/
def formatCivil (ymd : Nat × Nat × Nat) : String :=
  padNum 4 ymd.1 ++ String.mk [Char.ofNat 45] ++ padNum 2 ymd.2.1 ++
    String.mk [Char.ofNat 45] ++ padNum 2 ymd.2.2

/-- `new Date(t).getDate()` in a zero-offset zone: the day-of-month of
the instant's civil date. -/
def jsGetDate (t : Nat) : Nat := (daysToCivil (t / msPerDay)).2.2

/-- `setDate(n)` in a fixed-offset zone: setting the day-of-month to
`n` (with JavaScript's out-of-range normalization) moves the instant by
`(n - getDate())` whole days. -/
def jsSetDate (t : Nat) (n : Int) : Int :=
  (t : Int) + (n - (jsGetDate t : Int)) * (msPerDay : Int)

/-- The `dateStr` computed by `getRecentExecutiveOrders` at instant `t`:
`setDate(getDate() - 30)` followed by `toISOString().split('T')[0]`. -/
def getRecentDateStr (t : Nat) : String :=
  let shifted := jsSetDate t ((jsGetDate t : Int) - 30)
  formatCivil (daysToCivil (shifted.toNat / msPerDay))

/-- The options `getRecentExecutiveOrders` (called at instant `t`)
passes to `searchDocuments`, via `searchExecutiveOrders` with
`signingDateGte: dateStr`. -/
def getRecentExecutiveOrdersOptions (t : Nat) (fields : Option (List String)) :
    SearchDocumentsOptions :=
  searchExecutiveOrdersOptions
    { president := none, year := none, term := none,
      signingDateGte := some (getRecentDateStr t), signingDateLte := none,
      fields := fields, per_page := none, page := none }

/-- The field list `getExecutiveOrderFullText` requests from
`getDocument`. -/
def fullTextDocFields : List String :=
  [("document_number"), ("executive_order_number"), ("title"), ("signing_date"),
   ("president"), ("abstract"), ("raw_text_url"), ("html_url"), ("pdf_url")]

/-- `getExecutiveOrderFullText(eoNumber)` with the number of raw-text
fetches performed.  `docFetch` abstracts `getDocument` (document number
and requested fields to the fetched record) and `fetchText` abstracts
`fetchDocumentText`.  When the record lacks a `raw_text_url` the result
is a success carrying `full_text: null` and an explanatory `error`
note, and no text fetch happens. -/
def getExecutiveOrderFullText (search : SearchBackend ExecutiveOrder)
    (docFetch : String → List String → ExecutiveOrder)
    (fetchText : String → String) (eoNumber : Int) :
    Option ExecutiveOrderFullText × Nat :=
  match getExecutiveOrderByNumber search eoNumber none with
  | none => (none, 0)
  | some eo =>
    let fullDoc := docFetch eo.document_number fullTextDocFields
    match fullDoc.raw_text_url with
    | none =>
      (some { executive_order_number := eoNumber,
              document_number := none,
              title := fullDoc.title,
              signing_date := fullDoc.signing_date,
              president := fullDoc.president,
              abstract := fullDoc.abstract,
              full_text := none,
              error := some ("Full text not available for this executive order"),
              html_url := fullDoc.html_url,
              pdf_url := fullDoc.pdf_url }, 0)
    | some url =>
      (some { executive_order_number := eoNumber,
              document_number := some fullDoc.document_number,
              title := fullDoc.title,
              signing_date := fullDoc.signing_date,
              president := fullDoc.president,
              abstract := fullDoc.abstract,
              full_text := some (fetchText url),
              error := none,
              html_url := fullDoc.html_url,
              pdf_url := fullDoc.pdf_url }, 1)

/-- `{ ...options, page, per_page: perPage }`: the per-page options the
paginator passes to its search function. -/
def pageOpts (opts : SearchDocumentsOptions) (perPage : Int) (page : Nat) :
    SearchDocumentsOptions :=
  { opts with page := some (page : Int), per_page := some perPage }

/-- `Math.min(options.per_page || 100, 1000)`. -/
def getAllPerPage (opts : SearchDocumentsOptions) : Int :=
  min (jsOrInt opts.per_page 100) 1000

/-- The `while (allResults.length < maxResults)` loop of
`getAllResults`, indexed by remaining fuel; returns the accumulator and
the number of search calls, or `none` when the budget runs out.  The
loop breaks on an empty (or absent) result page, breaks when
`page >= response.total_pages`, and otherwise advances the page. -/
def gARLoopF {T : Type} (search : SearchBackend T) (opts : SearchDocumentsOptions)
    (maxResults : Nat) (perPage : Int) :
    Nat → Nat → List T → Nat → Option (List T × Nat)
  | 0, _, _, _ => none
  | fuel + 1, page, acc, calls =>
    if acc.length < maxResults then
      let response := search (pageOpts opts perPage page)
      let rs := resultsOf response
      if rs.isEmpty then some (acc, calls + 1)
      else if (page : Int) ≥ response.total_pages then some (acc ++ rs, calls + 1)
      else gARLoopF search opts maxResults perPage fuel (page + 1) (acc ++ rs) (calls + 1)
    else some (acc, calls)

/-- `getAllResults(searchFn, options, maxResults)` with its call count:
the loop's accumulator truncated by `slice(0, maxResults)`.  A budget
of `maxResults + 1` iterations always suffices because every iteration
that does not break grows the accumulator (the termination theorem
below proves the `none` branch is dead). -/
def getAllResults {T : Type} (search : SearchBackend T)
    (opts : SearchDocumentsOptions) (maxResults : Nat) : List T × Nat :=
  match gARLoopF search opts maxResults (getAllPerPage opts) (maxResults + 1) 1 [] 0 with
  | some (acc, calls) => (acc.take maxResults, calls)
  | none => ([], 0)

/-- Concatenation of the result sequences of pages `1, …, n`, in page
order, as served by the backend on the paginator's options. -/
def pagesConcat {T : Type} (search : SearchBackend T) (opts : SearchDocumentsOptions)
    (perPage : Int) (n : Nat) : List T :=
  (List.range' 1 n).flatMap (fun p => resultsOf (search (pageOpts opts perPage p)))

/-- A value the remote API treats as a scalar filter value: a boolean,
number, or string. -/
def isScalar : JSVal → Bool
  | JSVal.bool _ => true
  | JSVal.num _ => true
  | JSVal.str _ => true
  | _ => false

lemma queryParts_conditions_some (p : QueryParams) (cs : List (String × JSVal))
    (hc : p.conditions = some cs) :
    queryParts p = condParts cs ++ restParts p := by
  rw [queryParts, hc]

lemma condParts_append (cs ds : List (String × JSVal)) :
    condParts (cs ++ ds) = condParts cs ++ condParts ds := by
  simp [condParts]

lemma condParts_cons (e : String × JSVal) (cs : List (String × JSVal)) :
    condParts (e :: cs) = condEntryParts ("conditions") e.1 e.2 ++ condParts cs := by
  simp [condParts]

lemma flatMap_addParam {α : Type} (keyf : α → String) (vf : α → JSVal) (l : List α) :
    l.flatMap (fun e => addParam (keyf e) (vf e)) =
      (l.filter (fun e => !(isNullish (vf e)))).map
        (fun e => mkPair (keyf e) (jsString (vf e))) := by
  induction l with
  | nil => simp
  | cons x xs ih =>
    rw [List.flatMap_cons, List.filter_cons, ih]
    by_cases h : isNullish (vf x) = true
    · simp [addParam, h]
    · simp [addParam, h]

lemma isNullish_of_isScalar {v : JSVal} (h : isScalar v = true) : isNullish v = false := by
  cases v <;> simp_all [isScalar, isNullish]

lemma hexDigitChar_ne_amp (n : Nat) : hexDigitChar n ≠ Char.ofNat 38 := by
  have hall : ∀ x ∈ (("0123456789ABCDEF").data), x ≠ Char.ofNat 38 := by decide
  rw [hexDigitChar, List.getD_eq_getElem?_getD]
  cases h : (("0123456789ABCDEF").data)[n]? with
  | none => simp
  | some c => simpa using hall c (List.getElem?_mem h)

lemma amp_not_mem_percentEncodeByte (b : Nat) :
    Char.ofNat 38 ∉ percentEncodeByte b := by
  intro h
  rcases List.mem_cons.mp h with h1 | h1
  · exact absurd h1 (by decide)
  · rcases List.mem_cons.mp h1 with h2 | h2
    · exact hexDigitChar_ne_amp _ h2.symm
    · rcases List.mem_cons.mp h2 with h3 | h3
      · exact hexDigitChar_ne_amp _ h3.symm
      · simp at h3

lemma amp_not_mem_encodeURIComponentChar (c : Char) :
    Char.ofNat 38 ∉ encodeURIComponentChar c := by
  rw [encodeURIComponentChar]
  split
  · rename_i hc
    intro hmem
    rw [List.mem_singleton] at hmem
    rw [← hmem] at hc
    exact absurd hc (by decide)
  · intro hmem
    rw [List.mem_flatMap] at hmem
    obtain ⟨b, _, hb⟩ := hmem
    exact amp_not_mem_percentEncodeByte b hb

lemma amp_not_mem_encode (s : String) :
    Char.ofNat 38 ∉ (encodeURIComponent s).data := by
  show Char.ofNat 38 ∉ s.data.flatMap encodeURIComponentChar
  rw [List.mem_flatMap]
  rintro ⟨c, _, hc⟩
  exact amp_not_mem_encodeURIComponentChar c hc

lemma mkPair_data (a b : String) :
    (mkPair a b).data =
      (encodeURIComponent a).data ++ Char.ofNat 61 :: (encodeURIComponent b).data := by
  show ((encodeURIComponent a ++ ("=")) ++ encodeURIComponent b).data = _
  rw [String.data_append, String.data_append]
  simp

lemma mkPair_wf (a b : String) :
    (mkPair a b).data ≠ [] ∧ Char.ofNat 38 ∉ (mkPair a b).data := by
  rw [mkPair_data]
  constructor
  · simp
  · intro hmem
    rcases List.mem_append.mp hmem with h | h
    · exact amp_not_mem_encode a h
    · rcases List.mem_cons.mp h with h | h
      · exact absurd h (by decide)
      · exact amp_not_mem_encode b h

lemma mem_addParam {q : String} {key : String} {v : JSVal}
    (h : q ∈ addParam key v) : ∃ a b, q = mkPair a b := by
  rw [addParam] at h
  split at h
  · simp at h
  · rw [List.mem_singleton] at h
    exact ⟨key, jsString v, h⟩

lemma mem_condEntryParts {q : String} {pre key : String} {v : JSVal}
    (h : q ∈ condEntryParts pre key v) : ∃ a b, q = mkPair a b := by
  cases v with
  | obj entries =>
    rw [condEntryParts, List.mem_flatMap] at h
    obtain ⟨e, _, he⟩ := h
    exact mem_addParam he
  | arr items =>
    rw [condEntryParts, List.mem_flatMap] at h
    obtain ⟨e, _, he⟩ := h
    exact mem_addParam he
  | undef => exact mem_addParam h
  | null => exact mem_addParam h
  | bool b => exact mem_addParam h
  | num n => exact mem_addParam h
  | str s => exact mem_addParam h

lemma mem_condParts {q : String} {cs : List (String × JSVal)}
    (h : q ∈ condParts cs) : ∃ a b, q = mkPair a b := by
  rw [condParts, List.mem_flatMap] at h
  obtain ⟨e, _, he⟩ := h
  exact mem_condEntryParts he

lemma mem_restParts {q : String} {p : QueryParams}
    (h : q ∈ restParts p) : ∃ a b, q = mkPair a b := by
  rw [restParts] at h
  simp only [List.mem_append] at h
  rcases h with ((((h | h) | h) | h) | h)
  · rw [fieldsParts] at h
    split at h
    · split at h
      · rw [List.mem_flatMap] at h
        obtain ⟨e, _, he⟩ := h
        exact mem_addParam he
      · simp at h
    · simp at h
  · rw [perPageParts] at h
    split at h
    · exact mem_addParam h
    · simp at h
  · rw [pagePartsQ] at h
    split at h
    · exact mem_addParam h
    · simp at h
  · rw [orderParts] at h
    split at h
    · exact mem_addParam h
    · simp at h
  · rw [formatParts] at h
    split at h
    · exact mem_addParam h
    · simp at h

lemma mem_queryParts {q : String} {p : QueryParams}
    (h : q ∈ queryParts p) : ∃ a b, q = mkPair a b := by
  rw [queryParts] at h
  rcases List.mem_append.mp h with h | h
  · split at h
    · exact mem_condParts h
    · simp at h
  · exact mem_restParts h

lemma splitAmp_of_not_mem (l : List Char) (h : Char.ofNat 38 ∉ l) :
    splitAmp l = [l] := by
  induction l with
  | nil => rfl
  | cons c cs ih =>
    have hc : ¬ c = Char.ofNat 38 := fun hh => h (hh ▸ List.mem_cons_self c cs)
    have ht : Char.ofNat 38 ∉ cs := fun hh => h (List.mem_cons_of_mem c hh)
    rw [splitAmp, if_neg hc, ih ht]

lemma splitAmp_append (l rest : List Char) (h : Char.ofNat 38 ∉ l) :
    splitAmp (l ++ Char.ofNat 38 :: rest) = l :: splitAmp rest := by
  induction l with
  | nil =>
    show splitAmp (Char.ofNat 38 :: rest) = [] :: splitAmp rest
    rw [splitAmp, if_pos rfl]
  | cons c cs ih =>
    have hc : ¬ c = Char.ofNat 38 := fun hh => h (hh ▸ List.mem_cons_self c cs)
    have ht : Char.ofNat 38 ∉ cs := fun hh => h (List.mem_cons_of_mem c hh)
    show splitAmp (c :: (cs ++ Char.ofNat 38 :: rest)) = (c :: cs) :: splitAmp rest
    rw [splitAmp, if_neg hc, ih ht]

lemma splitAmp_joinParts (parts : List (List Char)) (hne : parts ≠ [])
    (hwf : ∀ q ∈ parts, Char.ofNat 38 ∉ q) :
    splitAmp (joinParts parts) = parts := by
  induction parts with
  | nil => exact absurd rfl hne
  | cons q qs ih =>
    cases qs with
    | nil =>
      show splitAmp (joinParts [q]) = [q]
      rw [joinParts]
      exact splitAmp_of_not_mem q (hwf q (List.mem_cons_self q []))
    | cons q2 qs' =>
      show splitAmp (q ++ Char.ofNat 38 :: joinParts (q2 :: qs')) = q :: q2 :: qs'
      rw [splitAmp_append q _ (hwf q (List.mem_cons_self q _))]
      rw [ih (by simp) (fun r hr => hwf r (List.mem_cons_of_mem q hr))]

lemma buildQueryString_no_empty_segments (p : QueryParams) :
    buildQueryString p = ("") ∨
      ∀ seg ∈ splitAmp (buildQueryString p).data, seg ≠ [] := by
  by_cases h : queryParts p = []
  · left
    show String.mk (joinParts ((queryParts p).map String.data)) = ("")
    rw [h]
    rfl
  · right
    intro seg hseg
    have hdata : (buildQueryString p).data = joinParts ((queryParts p).map String.data) := rfl
    rw [hdata] at hseg
    have hwf : ∀ q ∈ (queryParts p).map String.data, Char.ofNat 38 ∉ q := by
      intro q hq
      obtain ⟨r, hr, hrq⟩ := List.mem_map.mp hq
      obtain ⟨a, b, hab⟩ := mem_queryParts hr
      rw [← hrq, hab]
      exact (mkPair_wf a b).2
    rw [splitAmp_joinParts _ (by simpa using h) hwf] at hseg
    obtain ⟨r, hr, hrq⟩ := List.mem_map.mp hseg
    obtain ⟨a, b, hab⟩ := mem_queryParts hr
    rw [← hrq, hab]
    exact (mkPair_wf a b).1

/-- C5: for every filter-condition set in which a key `k` maps to a
nested (non-sequence) mapping `m`, the parts array of `buildQueryString`
consists of the parts for the preceding entries, then exactly one
percent-encoded `conditions[k][sub]=v` pair for each sub-key of `m`
whose value is neither null nor undefined, in `m`'s iteration order and
with no pair for any absent sub-key, then the parts for the following
entries; the query string is the ampersand-join of exactly these
parts. -/
theorem buildQueryString_nested_mapping_pairs (p : QueryParams)
    (pre post : List (String × JSVal)) (k : String) (m : List (String × JSVal))
    (hc : p.conditions = some (pre ++ (k, JSVal.obj m) :: post)) :
    queryParts p =
      condParts pre ++
        (m.filter (fun e => !(isNullish e.2))).map
          (fun e => mkPair (("conditions[") ++ k ++ ("][") ++ e.1 ++ ("]")) (jsString e.2)) ++
        (condParts post ++ restParts p) ∧
    buildQueryString p =
      String.mk (joinParts ((condParts pre ++
        (m.filter (fun e => !(isNullish e.2))).map
          (fun e => mkPair (("conditions[") ++ k ++ ("][") ++ e.1 ++ ("]")) (jsString e.2)) ++
        (condParts post ++ restParts p)).map String.data)) := by
  have hentry : condEntryParts ("conditions") k (JSVal.obj m) =
      (m.filter (fun e => !(isNullish e.2))).map
        (fun e => mkPair (("conditions[") ++ k ++ ("][") ++ e.1 ++ ("]")) (jsString e.2)) := by
    exact flatMap_addParam
      (fun e : String × JSVal => ("conditions") ++ ("[") ++ k ++ ("][") ++ e.1 ++ ("]"))
      (fun e => e.2) m
  have hA : queryParts p =
      condParts pre ++
        (m.filter (fun e => !(isNullish e.2))).map
          (fun e => mkPair (("conditions[") ++ k ++ ("][") ++ e.1 ++ ("]")) (jsString e.2)) ++
        (condParts post ++ restParts p) := by
    rw [queryParts_conditions_some p _ hc, condParts_append, condParts_cons]
    rw [hentry]
    simp only [List.append_assoc]
  exact ⟨hA, by rw [buildQueryString, hA]⟩

/-- Concrete input for the nested-mapping encoding: a
`publication_date` filter with a present `year` sub-key and a null
`gte` sub-key. -/
def exampleNestedParams : QueryParams :=
  { conditions := some
      [(("publication_date"), JSVal.obj [(("year"), JSVal.num 2024), (("gte"), JSVal.null)])],
    fields := none, per_page := none, page := none, order := none, format := none }

/-- Witness for C5: on the concrete input, the null sub-key is dropped
and the year sub-key yields exactly one encoded pair. -/
theorem buildQueryString_nested_mapping_pairs_witness :
    exampleNestedParams.conditions =
      some ([] ++ (("publication_date"),
        JSVal.obj [(("year"), JSVal.num 2024), (("gte"), JSVal.null)]) :: []) ∧
    buildQueryString exampleNestedParams =
      ("conditions%5Bpublication_date%5D%5Byear%5D=2024") := by
  refine ⟨rfl, ?_⟩
  have h := (buildQueryString_nested_mapping_pairs exampleNestedParams [] []
    ("publication_date") [(("year"), JSVal.num 2024), (("gte"), JSVal.null)] rfl).2
  rw [h]
  decide

/-- C6: for every filter-condition set in which a key `k` maps to a
sequence of scalar values (none null or undefined), the parts array
contains exactly one `conditions[k][]=v` pair per element, in input
order (so exactly `N` pairs for `N` elements). -/
theorem buildQueryString_array_pairs (p : QueryParams)
    (pre post : List (String × JSVal)) (k : String) (items : List JSVal)
    (hc : p.conditions = some (pre ++ (k, JSVal.arr items) :: post))
    (hs : ∀ v ∈ items, isScalar v = true) :
    queryParts p =
      condParts pre ++
        items.map (fun v => mkPair (("conditions[") ++ k ++ ("][]")) (jsString v)) ++
        (condParts post ++ restParts p) ∧
    (items.map (fun v => mkPair (("conditions[") ++ k ++ ("][]")) (jsString v))).length =
      items.length := by
  have hfilter : items.filter (fun v => !(isNullish v)) = items := by
    rw [List.filter_eq_self]
    intro v hv
    rw [isNullish_of_isScalar (hs v hv)]
    rfl
  have hentry : condEntryParts ("conditions") k (JSVal.arr items) =
      items.map (fun v => mkPair (("conditions[") ++ k ++ ("][]")) (jsString v)) := by
    have h0 := flatMap_addParam
      (fun _ : JSVal => ("conditions") ++ ("[") ++ k ++ ("][]")) (fun v => v) items
    rw [hfilter] at h0
    exact h0
  constructor
  · rw [queryParts_conditions_some p _ hc, condParts_append, condParts_cons]
    rw [hentry]
    simp only [List.append_assoc]
  · exact List.length_map items _

/-- Concrete input for the sequence encoding: an `agencies` filter with
two scalar elements. -/
def exampleArrayParams : QueryParams :=
  { conditions := some [(("agencies"), JSVal.arr [JSVal.str ("epa"), JSVal.str ("fda")])],
    fields := none, per_page := none, page := none, order := none, format := none }

/-- Witness for C6: two elements yield exactly two repeated
`conditions[agencies][]=` pairs, in input order. -/
theorem buildQueryString_array_pairs_witness :
    exampleArrayParams.conditions =
      some ([] ++ (("agencies"), JSVal.arr [JSVal.str ("epa"), JSVal.str ("fda")]) :: []) ∧
    (∀ v ∈ [JSVal.str ("epa"), JSVal.str ("fda")], isScalar v = true) ∧
    buildQueryString exampleArrayParams =
      ("conditions%5Bagencies%5D%5B%5D=epa&conditions%5Bagencies%5D%5B%5D=fda") := by
  refine ⟨rfl, by decide, ?_⟩
  have h := (buildQueryString_array_pairs exampleArrayParams [] [] ("agencies")
    [JSVal.str ("epa"), JSVal.str ("fda")] rfl (by decide)).1
  rw [buildQueryString, h]
  decide

/-- C10: a key mapped to an empty sequence or an empty nested mapping
contributes no part at all (not even a bare `conditions[k]=` pair), and
the built query string has no empty ampersand-separated segment (when
it is nonempty at all). -/
theorem buildQueryString_empty_collection (p : QueryParams)
    (pre post : List (String × JSVal)) (k : String) (v : JSVal)
    (hv : v = JSVal.arr [] ∨ v = JSVal.obj [])
    (hc : p.conditions = some (pre ++ (k, v) :: post)) :
    queryParts p = condParts pre ++ (condParts post ++ restParts p) ∧
    (buildQueryString p = ("") ∨
      ∀ seg ∈ splitAmp (buildQueryString p).data, seg ≠ []) := by
  constructor
  · have hentry : condEntryParts ("conditions") k v = [] := by
      rcases hv with h | h <;> subst h <;> rfl
    rw [queryParts_conditions_some p _ hc, condParts_append, condParts_cons, hentry]
    simp only [List.append_assoc, List.nil_append]
  · exact buildQueryString_no_empty_segments p

/-- Concrete input for the empty-collection case: an empty `agencies`
sequence followed by a scalar `president` filter. -/
def exampleEmptyArrayParams : QueryParams :=
  { conditions := some
      [(("agencies"), JSVal.arr []), (("president"), JSVal.str ("joe-biden"))],
    fields := none, per_page := none, page := none, order := none, format := none }

/-- Witness for C10: the empty sequence contributes nothing and the
resulting string is exactly the one pair for the scalar filter, with no
empty segments. -/
theorem buildQueryString_empty_collection_witness :
    exampleEmptyArrayParams.conditions =
      some ([] ++ (("agencies"), JSVal.arr []) ::
        [(("president"), JSVal.str ("joe-biden"))]) ∧
    queryParts exampleEmptyArrayParams =
      condParts [] ++ (condParts [(("president"), JSVal.str ("joe-biden"))] ++
        restParts exampleEmptyArrayParams) ∧
    buildQueryString exampleEmptyArrayParams = ("conditions%5Bpresident%5D=joe-biden") := by
  refine ⟨rfl, ?_, by decide⟩
  exact (buildQueryString_empty_collection exampleEmptyArrayParams []
    [(("president"), JSVal.str ("joe-biden"))] ("agencies") (JSVal.arr [])
    (Or.inl rfl) rfl).1

lemma find?_eq_some_of_unique {α : Type} (p : α → Bool) (l : List α) (a : α)
    (ha : a ∈ l) (hpa : p a = true)
    (huniq : ∀ b ∈ l, p b = true → b = a) :
    l.find? p = some a := by
  induction l with
  | nil => simp at ha
  | cons x xs ih =>
    by_cases hx : p x = true
    · rw [List.find?_cons_of_pos xs hx]
      rw [huniq x (List.mem_cons_self x xs) hx]
    · rw [List.find?_cons_of_neg xs (by simpa using hx)]
      have hax : a ∈ xs := by
        rcases List.mem_cons.mp ha with h | h
        · exact absurd (h ▸ hpa) hx
        · exact h
      exact ih hax (fun b hb hpb => huniq b (List.mem_cons_of_mem x hb) hpb)

/-- C1: against any search backend whose first page of (up to 100)
free-text results for the number `n` is the list `rs`,
`getExecutiveOrderByNumber` returns the unique record of `rs` whose
`executive_order_number` equals `n` numerically when one exists, and
`none` (the source's `null`) when no returned record matches. -/
theorem getExecutiveOrderByNumber_exact_match (search : SearchBackend ExecutiveOrder)
    (n : Int) (fields : Option (List String)) (rs : List ExecutiveOrder)
    (hres : (search (eoByNumberOptions n fields)).results = some rs) :
    (∀ eo, eo ∈ rs → eo.executive_order_number = n →
      (∀ eo2 ∈ rs, eo2.executive_order_number = n → eo2 = eo) →
      getExecutiveOrderByNumber search n fields = some eo) ∧
    ((∀ eo ∈ rs, eo.executive_order_number ≠ n) →
      getExecutiveOrderByNumber search n fields = none) := by
  constructor
  · intro eo hmem heq huniq
    rw [getExecutiveOrderByNumber, hres]
    exact find?_eq_some_of_unique _ rs eo hmem (by simpa using heq)
      (fun b hb hpb => huniq b hb (by simpa using hpb))
  · intro hnone
    rw [getExecutiveOrderByNumber, hres]
    rw [List.find?_eq_none]
    intro eo hmem
    simpa using hnone eo hmem

/-- A minimal executive-order record with a given number, for concrete
backends. -/
def mkEO (n : Int) : ExecutiveOrder :=
  { document_number := toString n,
    executive_order_number := n,
    title := ("t"),
    abstract := none,
    signing_date := ("2024-01-01"),
    publication_date := ("2024-01-02"),
    president := { name := ("p"), identifier := ("p") },
    html_url := ("h"),
    pdf_url := none,
    raw_text_url := none }

/-- A mock backend whose search always returns the records numbered
10, 22, 31. -/
def mockEOBackend : SearchBackend ExecutiveOrder :=
  fun _ => { count := 3, total_pages := 1, results := some [mkEO 10, mkEO 22, mkEO 31] }

/-- Witness for C1: querying 22 against records numbered 10, 22, 31
returns the record numbered 22; querying 99 returns `none`. -/
theorem getExecutiveOrderByNumber_exact_match_witness :
    (mockEOBackend (eoByNumberOptions 22 none)).results =
      some [mkEO 10, mkEO 22, mkEO 31] ∧
    getExecutiveOrderByNumber mockEOBackend 22 none = some (mkEO 22) ∧
    getExecutiveOrderByNumber mockEOBackend 99 none = none := by
  refine ⟨rfl, ?_, ?_⟩
  · exact (getExecutiveOrderByNumber_exact_match mockEOBackend 22 none
      [mkEO 10, mkEO 22, mkEO 31] rfl).1 (mkEO 22) (by decide) (by decide) (by decide)
  · exact (getExecutiveOrderByNumber_exact_match mockEOBackend 99 none
      [mkEO 10, mkEO 22, mkEO 31] rfl).2 (by decide)

/-- C7: when the exact-number lookup finds an order but the fetched
document record lacks a `raw_text_url`, `getExecutiveOrderFullText`
returns a successful (non-null) result whose `full_text` is null and
which carries the explanatory note, and performs no text fetch. -/
theorem getExecutiveOrderFullText_missing_raw_text
    (search : SearchBackend ExecutiveOrder)
    (docFetch : String → List String → ExecutiveOrder)
    (fetchText : String → String) (n : Int) (eo : ExecutiveOrder)
    (hfound : getExecutiveOrderByNumber search n none = some eo)
    (hnourl : (docFetch eo.document_number fullTextDocFields).raw_text_url = none) :
    ∃ r, getExecutiveOrderFullText search docFetch fetchText n = (some r, 0) ∧
      r.full_text = none ∧
      r.error = some ("Full text not available for this executive order") := by
  refine ⟨{ executive_order_number := n,
            document_number := none,
            title := (docFetch eo.document_number fullTextDocFields).title,
            signing_date := (docFetch eo.document_number fullTextDocFields).signing_date,
            president := (docFetch eo.document_number fullTextDocFields).president,
            abstract := (docFetch eo.document_number fullTextDocFields).abstract,
            full_text := none,
            error := some ("Full text not available for this executive order"),
            html_url := (docFetch eo.document_number fullTextDocFields).html_url,
            pdf_url := (docFetch eo.document_number fullTextDocFields).pdf_url },
          ?_, rfl, rfl⟩
  rw [getExecutiveOrderFullText, hfound]
  simp only [hnourl]

/-- A mock `getDocument` returning a record with no `raw_text_url`. -/
def mockDocFetchNoText : String → List String → ExecutiveOrder :=
  fun _ _ => mkEO 22

/-- Witness for C7: with the mock backend and a fetched record lacking
`raw_text_url`, the result is a success with null text, the note, and
zero text fetches. -/
theorem getExecutiveOrderFullText_missing_raw_text_witness :
    getExecutiveOrderByNumber mockEOBackend 22 none = some (mkEO 22) ∧
    (mockDocFetchNoText (mkEO 22).document_number fullTextDocFields).raw_text_url = none ∧
    ∃ r, getExecutiveOrderFullText mockEOBackend mockDocFetchNoText
        (fun _ => ("unused")) 22 = (some r, 0) ∧
      r.full_text = none ∧
      r.error = some ("Full text not available for this executive order") := by
  refine ⟨by decide, rfl, ?_⟩
  exact getExecutiveOrderFullText_missing_raw_text mockEOBackend mockDocFetchNoText
    (fun _ => ("unused")) 22 (mkEO 22) (by decide) rfl

lemma gARLoopF_some {T : Type} (search : SearchBackend T) (opts : SearchDocumentsOptions)
    (maxR : Nat) (perPage : Int) :
    ∀ fuel page acc calls, maxR < acc.length + fuel → 0 < fuel →
      ∃ out, gARLoopF search opts maxR perPage fuel page acc calls = some out := by
  intro fuel
  induction fuel with
  | zero => omega
  | succ fuel ih =>
    intro page acc calls h _
    simp only [gARLoopF]
    by_cases hlen : acc.length < maxR
    · rw [if_pos hlen]
      by_cases hrs : (resultsOf (search (pageOpts opts perPage page))).isEmpty = true
      · rw [if_pos hrs]
        exact ⟨_, rfl⟩
      · rw [if_neg hrs]
        by_cases hge : (page : Int) ≥ (search (pageOpts opts perPage page)).total_pages
        · rw [if_pos hge]
          exact ⟨_, rfl⟩
        · rw [if_neg hge]
          have hlen1 : 1 ≤ (resultsOf (search (pageOpts opts perPage page))).length := by
            rcases List.isEmpty_iff.not.mp hrs with h'
            have := List.length_pos.mpr h'
            omega
          apply ih
          · rw [List.length_append]
            omega
          · omega
    · rw [if_neg hlen]
      exact ⟨_, rfl⟩

lemma gARLoopF_mono {T : Type} (search : SearchBackend T) (opts : SearchDocumentsOptions)
    (maxR : Nat) (perPage : Int) :
    ∀ fuel fuel2 page acc calls out,
      gARLoopF search opts maxR perPage fuel page acc calls = some out →
      fuel ≤ fuel2 →
      gARLoopF search opts maxR perPage fuel2 page acc calls = some out := by
  intro fuel
  induction fuel with
  | zero =>
    intro fuel2 page acc calls out h
    rw [gARLoopF] at h
    exact absurd h (by simp)
  | succ fuel ih =>
    intro fuel2 page acc calls out h hle
    cases fuel2 with
    | zero => omega
    | succ fuel2 =>
      simp only [gARLoopF] at h ⊢
      by_cases hlen : acc.length < maxR
      · rw [if_pos hlen] at h ⊢
        by_cases hrs : (resultsOf (search (pageOpts opts perPage page))).isEmpty = true
        · rw [if_pos hrs] at h ⊢
          exact h
        · rw [if_neg hrs] at h ⊢
          by_cases hge : (page : Int) ≥ (search (pageOpts opts perPage page)).total_pages
          · rw [if_pos hge] at h ⊢
            exact h
          · rw [if_neg hge] at h ⊢
            exact ih fuel2 _ _ _ _ h (by omega)
      · rw [if_neg hlen] at h ⊢
        exact h

lemma pagesConcat_succ {T : Type} (search : SearchBackend T) (opts : SearchDocumentsOptions)
    (perPage : Int) (n : Nat) :
    pagesConcat search opts perPage (n + 1) =
      pagesConcat search opts perPage n ++
        resultsOf (search (pageOpts opts perPage (n + 1))) := by
  rw [pagesConcat, pagesConcat, List.range'_concat, List.flatMap_append]
  have h : 1 + 1 * n = n + 1 := by omega
  rw [h]
  simp

lemma pagesConcat_extends {T : Type} (search : SearchBackend T) (opts : SearchDocumentsOptions)
    (perPage : Int) (k m : Nat) (h : k ≤ m) :
    pagesConcat search opts perPage k <+: pagesConcat search opts perPage m := by
  refine ⟨(List.range' (k + 1) (m - k)).flatMap
    (fun q => resultsOf (search (pageOpts opts perPage q))), ?_⟩
  rw [pagesConcat, pagesConcat, ← List.flatMap_append]
  congr 1
  have hr := List.range'_append 1 k (m - k) 1
  have h1 : 1 + 1 * k = k + 1 := by omega
  have h2 : m - k + k = m := by omega
  rw [h1, h2] at hr
  exact hr

lemma gARLoopF_acc_pagesConcat {T : Type} (search : SearchBackend T)
    (opts : SearchDocumentsOptions) (maxR : Nat) (perPage : Int) :
    ∀ fuel page acc calls out,
      gARLoopF search opts maxR perPage fuel page acc calls = some out →
      acc = pagesConcat search opts perPage (page - 1) →
      1 ≤ page →
      ∃ k, page - 1 ≤ k ∧ out.1 = pagesConcat search opts perPage k := by
  intro fuel
  induction fuel with
  | zero =>
    intro page acc calls out h
    rw [gARLoopF] at h
    exact absurd h (by simp)
  | succ fuel ih =>
    intro page acc calls out h hacc hpage
    have hp : page - 1 + 1 = page := by omega
    simp only [gARLoopF] at h
    by_cases hlen : acc.length < maxR
    · rw [if_pos hlen] at h
      by_cases hrs : (resultsOf (search (pageOpts opts perPage page))).isEmpty = true
      · rw [if_pos hrs] at h
        have hout : (acc, calls + 1) = out := Option.some.inj h
        refine ⟨page - 1, le_refl _, ?_⟩
        rw [← hout]
        exact hacc
      · rw [if_neg hrs] at h
        have hnext : pagesConcat search opts perPage page =
            acc ++ resultsOf (search (pageOpts opts perPage page)) := by
          conv_lhs => rw [← hp]
          rw [pagesConcat_succ, hp, ← hacc]
        by_cases hge : (page : Int) ≥ (search (pageOpts opts perPage page)).total_pages
        · rw [if_pos hge] at h
          have hout : (acc ++ resultsOf (search (pageOpts opts perPage page)), calls + 1) =
              out := Option.some.inj h
          refine ⟨page, by omega, ?_⟩
          rw [← hout]
          exact hnext.symm
        · rw [if_neg hge] at h
          obtain ⟨k, hk1, hk2⟩ := ih (page + 1) _ _ out h (by simpa using hnext.symm) (by omega)
          exact ⟨k, by omega, hk2⟩
    · rw [if_neg hlen] at h
      have hout : (acc, calls) = out := Option.some.inj h
      refine ⟨page - 1, le_refl _, ?_⟩
      rw [← hout]
      exact hacc

/-- C2: the paginator's loop terminates for every search function,
every initial filter and every finite maximum: a budget of
`maxResults + 1` iterations is always enough (and any larger budget
gives the same outcome), and `getAllResults` is the truncation of that
final accumulator.  In particular the loop never runs forever, even if
the caller requests more than the remote cap and even if the reported
total-page count never agrees with the pages served. -/
theorem getAllResults_terminates {T : Type} (search : SearchBackend T)
    (opts : SearchDocumentsOptions) (maxR : Nat) :
    ∃ res calls,
      gARLoopF search opts maxR (getAllPerPage opts) (maxR + 1) 1 [] 0 = some (res, calls) ∧
      (∀ fuel, maxR + 1 ≤ fuel →
        gARLoopF search opts maxR (getAllPerPage opts) fuel 1 [] 0 = some (res, calls)) ∧
      getAllResults search opts maxR = (res.take maxR, calls) := by
  obtain ⟨out, hout⟩ := gARLoopF_some search opts maxR (getAllPerPage opts)
    (maxR + 1) 1 [] 0 (by simp) (by omega)
  obtain ⟨res, calls⟩ := out
  refine ⟨res, calls, hout, ?_, ?_⟩
  · intro fuel hf
    exact gARLoopF_mono search opts maxR (getAllPerPage opts) (maxR + 1) fuel 1 [] 0 _ hout hf
  · rw [getAllResults, hout]

/-- C3: the sequence returned by `getAllResults` has length at most
`maxResults`, and equals the `maxResults`-truncation of the
concatenation of the first `k` pages' result sequences for some `k` —
hence it is a prefix of the concatenation of the pages' result
sequences, in page order, for every page horizon at least `k`
(truncation takes precedence over returning a full last page). -/
theorem getAllResults_truncation {T : Type} (search : SearchBackend T)
    (opts : SearchDocumentsOptions) (maxR : Nat) :
    (getAllResults search opts maxR).1.length ≤ maxR ∧
    ∃ k, (getAllResults search opts maxR).1 =
        (pagesConcat search opts (getAllPerPage opts) k).take maxR ∧
      ∀ m, k ≤ m → (getAllResults search opts maxR).1 <+:
        pagesConcat search opts (getAllPerPage opts) m := by
  obtain ⟨out, hout⟩ := gARLoopF_some search opts maxR (getAllPerPage opts)
    (maxR + 1) 1 [] 0 (by simp) (by omega)
  obtain ⟨res, calls⟩ := out
  obtain ⟨k, _, hk2⟩ := gARLoopF_acc_pagesConcat search opts maxR (getAllPerPage opts)
    (maxR + 1) 1 [] 0 _ hout (by rw [pagesConcat]; rfl) (le_refl 1)
  have hres : getAllResults search opts maxR = (res.take maxR, calls) := by
    rw [getAllResults, hout]
  rw [hres]
  refine ⟨?_, k, ?_, ?_⟩
  · rw [List.length_take]
    omega
  · rw [← hk2]
  · intro m hm
    obtain ⟨t2, ht2⟩ := pagesConcat_extends search opts (getAllPerPage opts) k m hm
    refine ⟨res.drop maxR ++ t2, ?_⟩
    rw [← List.append_assoc, List.take_append_drop]
    rw [show res = pagesConcat search opts (getAllPerPage opts) k from hk2, ht2]

/-- C4: when the first page's result sequence is empty (or the
`results` field is absent, which `resultsOf` reads as empty) and the
maximum is positive, `getAllResults` returns the empty sequence after
exactly one search call. -/
theorem getAllResults_empty_first_page {T : Type} (search : SearchBackend T)
    (opts : SearchDocumentsOptions) (maxR : Nat) (hpos : 0 < maxR)
    (hempty : resultsOf (search (pageOpts opts (getAllPerPage opts) 1)) = []) :
    getAllResults search opts maxR = ([], 1) := by
  have h1 : gARLoopF search opts maxR (getAllPerPage opts) (maxR + 1) 1 [] 0 =
      some ([], 1) := by
    cases maxR with
    | zero => omega
    | succ maxR' => simp [gARLoopF, hempty]
  rw [getAllResults, h1]
  simp

/-- A backend whose every page is empty, for the C4 witness. -/
def emptyBackend : SearchBackend Nat :=
  fun _ => { count := 0, total_pages := 0, results := some [] }

/-- The all-defaults search options. -/
def emptySDO : SearchDocumentsOptions :=
  { conditions := none, fields := none, per_page := none, page := none, order := none }

/-- Witness for C4: an empty first page yields the empty result after
exactly one call. -/
theorem getAllResults_empty_first_page_witness :
    0 < 5 ∧
    resultsOf (emptyBackend (pageOpts emptySDO (getAllPerPage emptySDO) 1)) = [] ∧
    getAllResults emptyBackend emptySDO 5 = ([], 1) := by
  refine ⟨by decide, rfl, ?_⟩
  exact getAllResults_empty_first_page emptyBackend emptySDO 5 (by decide) rfl

/-- A mock backend serving three pages of two items each, for the
truncation example. -/
def pagedBackend : SearchBackend Nat :=
  fun o =>
    { count := 6, total_pages := 3,
      results := some (match o.page with
        | some 1 => [1, 2]
        | some 2 => [3, 4]
        | some 3 => [5, 6]
        | _ => []) }

/-- Concrete instance of the truncation behaviour: with a maximum of 3
and pages of 2 items each, the paginator returns exactly the first 3
items (after 2 calls), not a full last page. -/
theorem getAllResults_take_three_example :
    getAllResults pagedBackend emptySDO 3 = ([1, 2, 3], 2) := by decide

/-- C9: for every president slug and search backend,
`getExecutiveOrdersByPresident` makes at most two search calls, its
result is a prefix of the concatenation of pages 1 and 2 of the
backend's results (so later pages are never returned, whatever
`total_pages` claims), and every page is requested with
`per_page = 1000`. -/
theorem getExecutiveOrdersByPresident_at_most_two_calls
    (search : SearchBackend ExecutiveOrder) (president : String)
    (fields : Option (List String)) :
    (getExecutiveOrdersByPresident search president fields).2 ≤ 2 ∧
    (getExecutiveOrdersByPresident search president fields).1 <+:
      resultsOf (search (eoByPresOptions president fields 1)) ++
        resultsOf (search (eoByPresOptions president fields 2)) ∧
    (∀ page, (eoByPresOptions president fields page).per_page = some 1000) := by
  by_cases hb1 : (resultsOf (search (eoByPresOptions president fields 1))).isEmpty = true
  · have hres : getExecutiveOrdersByPresident search president fields = ([], 1) := by
      simp [getExecutiveOrdersByPresident, eoByPresLoopF, hb1]
    rw [hres]
    exact ⟨by omega, ⟨_, rfl⟩, fun page => rfl⟩
  · by_cases hc1 : (1 : Int) < (search (eoByPresOptions president fields 1)).total_pages
    · by_cases hb2 : (resultsOf (search (eoByPresOptions president fields 2))).isEmpty = true
      · have hres : getExecutiveOrdersByPresident search president fields =
            (resultsOf (search (eoByPresOptions president fields 1)), 2) := by
          simp [getExecutiveOrdersByPresident, eoByPresLoopF, hb1, hc1, hb2]
        rw [hres]
        exact ⟨le_refl 2, ⟨_, rfl⟩, fun page => rfl⟩
      · have hres : getExecutiveOrdersByPresident search president fields =
            (resultsOf (search (eoByPresOptions president fields 1)) ++
              resultsOf (search (eoByPresOptions president fields 2)), 2) := by
          simp [getExecutiveOrdersByPresident, eoByPresLoopF, hb1, hc1, hb2]
        rw [hres]
        exact ⟨le_refl 2, ⟨[], by simp⟩, fun page => rfl⟩
    · have hres : getExecutiveOrdersByPresident search president fields =
          (resultsOf (search (eoByPresOptions president fields 1)), 1) := by
        simp [getExecutiveOrdersByPresident, eoByPresLoopF, hb1, hc1]
      rw [hres]
      exact ⟨by omega, ⟨_, rfl⟩, fun page => rfl⟩

lemma formatCivil_ne_empty (x : Nat × Nat × Nat) : ¬ formatCivil x = ("") := by
  intro hx
  have hlen := congrArg String.length hx
  simp only [formatCivil, String.length_append] at hlen
  have h1 : (String.mk [Char.ofNat 45]).length = 1 := rfl
  have h0 : ("" : String).length = 0 := rfl
  rw [h1, h0] at hlen
  omega

/-- C8: at every call instant `t` (a UTC instant, at least 30 days
past the epoch), `getRecentExecutiveOrders` computes a signing-date
floor whose day index is exactly 30 days before the current date's day
index, renders it as `YYYY-MM-DD`, and passes it as the `gte` bound of
the `signing_date` condition of the executive-order search. -/
theorem getRecentExecutiveOrders_thirty_day_floor (t : Nat)
    (fields : Option (List String)) (h : 30 * msPerDay ≤ t) :
    getRecentDateStr t = formatCivil (daysToCivil (t / msPerDay - 30)) ∧
    (getRecentExecutiveOrdersOptions t fields).conditions = some
      [(("type"), JSVal.str ("PRESDOCU")),
       (("presidential_document_type"), JSVal.str ("executive_order")),
       (("correction"), JSVal.num 0),
       (("signing_date"), JSVal.obj [(("gte"), JSVal.str (getRecentDateStr t))])] := by
  constructor
  · have hshift : jsSetDate t ((jsGetDate t : Int) - 30) =
        (t : Int) - 30 * (msPerDay : Int) := by
      rw [jsSetDate]
      ring
    have htoNat : ((t : Int) - 30 * (msPerDay : Int)).toNat = t - 30 * msPerDay := by
      omega
    have hdiv : (t - 30 * msPerDay) / msPerDay = t / msPerDay - 30 := by
      have h2 := Nat.sub_mul_div t msPerDay 30 (by omega)
      rw [Nat.mul_comm] at h2
      exact h2
    show formatCivil (daysToCivil
      ((jsSetDate t ((jsGetDate t : Int) - 30)).toNat / msPerDay)) = _
    rw [hshift, htoNat, hdiv]
  · have hne : ¬ getRecentDateStr t = ("") := formatCivil_ne_empty _
    simp [getRecentExecutiveOrdersOptions, searchExecutiveOrdersOptions,
      strTruthy, intTruthy, hne]

/-- Witness for C8: at the instant 1760000000000 ms (2025-10-09 UTC),
the computed floor is 2025-09-09 — exactly 30 calendar days earlier —
and it is passed as the `signing_date` `gte` bound. -/
theorem getRecentExecutiveOrders_thirty_day_floor_witness :
    30 * msPerDay ≤ 1760000000000 ∧
    (getRecentDateStr 1760000000000 =
        formatCivil (daysToCivil (1760000000000 / msPerDay - 30)) ∧
      (getRecentExecutiveOrdersOptions 1760000000000 none).conditions = some
        [(("type"), JSVal.str ("PRESDOCU")),
         (("presidential_document_type"), JSVal.str ("executive_order")),
         (("correction"), JSVal.num 0),
         (("signing_date"), JSVal.obj
           [(("gte"), JSVal.str (getRecentDateStr 1760000000000))])]) ∧
    getRecentDateStr 1760000000000 = ("2025-09-09") := by
  refine ⟨by decide, getRecentExecutiveOrders_thirty_day_floor 1760000000000 none (by decide), ?_⟩
  decide
